import Mathlib

/-!
Verification of the offline-first registry synchronization and CSV
reconciliation engine of the property-registry portal.

The embedding translates the two source files:
  * `src/pages/AdminPortal.tsx` — CSV parsing (`parseCSVLine`), header
    aliasing (`getIdx`/`col`), numeric parsing (`parseVal`), and the row
    normalizer/aggregator of `handleMasterSync`;
  * `src/unnamed/part_000` (the application root) — the `AsyncStorage`
    durable store, `handleMassImport` (merge/dedup engine), and the
    identity-normalization call sites.

Numbers: the host language computes with binary floating point; every value
the claims exercise is an exact decimal, so amounts are embedded as exact
decimal fractions (`Dec`, an integer mantissa with a power-of-ten
denominator) and compared at value level through `Dec.toRat : Dec → ℚ`.
-/

/-- Exact decimal number: value is `man / 10 ^ exp`.  This represents the
host numbers produced by `parseFloat` on decimal literals exactly. -/
structure Dec where
  man : Int
  exp : Nat
deriving DecidableEq

/-- Addition of exact decimals by cross-scaling the mantissas
(`a/10^m + b/10^n = (a*10^n + b*10^m) / 10^(m+n)`). -/
def Dec.add (a b : Dec) : Dec :=
  ⟨a.man * 10 ^ b.exp + b.man * 10 ^ a.exp, a.exp + b.exp⟩

/-- The rational value of an exact decimal. -/
def Dec.toRat (a : Dec) : ℚ := (a.man : ℚ) / 10 ^ a.exp

/-- The decimal zero, value of a fresh monetary accumulator. -/
def Dec.zero : Dec := ⟨0, 0⟩

/-- Whitespace characters trimmed at field boundaries (models the host
string `trim`, restricted to the ASCII whitespace the input format uses). -/
def wsp (c : Char) : Bool :=
  c = ' ' || c = '\t' || c = '\n' || c = '\r'

/-- Trim whitespace from both ends of a character list. -/
def trimChars (cs : List Char) : List Char :=
  ((cs.dropWhile wsp).reverse.dropWhile wsp).reverse

/-- Trim whitespace from both ends of a string (models `String.trim`). -/
def strTrim (s : String) : String := String.mk (trimChars s.data)

/-- Lower-case a string (models `toLowerCase` on the ASCII header names). -/
def strLower (s : String) : String := String.mk (s.data.map Char.toLower)

/-- Upper-case a string (models `toUpperCase` in the null-marker test). -/
def strUpper (s : String) : String := String.mk (s.data.map Char.toUpper)

/-- Decimal digit test. -/
def isDigitC (c : Char) : Bool := '0' ≤ c && c ≤ '9'

/-- Numeric value of a list of decimal digits, most significant first. -/
def digitsToNat (ds : List Char) : Nat :=
  ds.foldl (fun a c => a * 10 + (c.toNat - '0'.toNat)) 0

/-- Split a character list into its longest digit prefix and the rest. -/
def spanDigits : List Char → List Char × List Char
  | [] => ([], [])
  | c :: cs =>
    if isDigitC c then
      let p := spanDigits cs
      (c :: p.1, p.2)
    else ([], c :: cs)

/-- Parse an optionally signed digit run after an exponent marker; an
incomplete exponent contributes nothing (the host parser stops before it). -/
def parseSignedExp : List Char → Int
  | '+' :: rest => (digitsToNat (spanDigits rest).1 : Int)
  | '-' :: rest => -(digitsToNat (spanDigits rest).1 : Int)
  | cs => (digitsToNat (spanDigits cs).1 : Int)

/-- Exponent part following a mantissa: `e` or `E` then signed digits. -/
def parseExpPart : List Char → Int
  | 'e' :: rest => parseSignedExp rest
  | 'E' :: rest => parseSignedExp rest
  | _ => 0

/-- Scale an exact decimal by `10 ^ e`. -/
def applyExp (d : Dec) (e : Int) : Dec :=
  if 0 ≤ e then ⟨d.man * 10 ^ e.toNat, d.exp⟩ else ⟨d.man, d.exp + (-e).toNat⟩

/-- Model of the host `parseFloat` on finite decimal literals: skip leading
whitespace, optional sign, longest `digits[.digits][exponent]` prefix;
`none` models NaN (no numeric prefix).  The `Infinity` literal and binary
float rounding are not modelled: all inputs of interest are exact
decimals. -/
def parseFloatM (s : String) : Option Dec :=
  let cs := s.data.dropWhile wsp
  let signed : Int × List Char :=
    match cs with
    | '+' :: r => (1, r)
    | '-' :: r => (-1, r)
    | _ => (1, cs)
  let ip := spanDigits signed.2
  let fp : List Char × List Char :=
    match ip.2 with
    | '.' :: t => spanDigits t
    | _ => ([], ip.2)
  if ip.1 = [] ∧ fp.1 = [] then none
  else
    some (applyExp
      ⟨signed.1 * ((digitsToNat ip.1) * 10 ^ fp.1.length + digitsToNat fp.1),
       fp.1.length⟩
      (parseExpPart fp.2))

/-- Strip thousands separators then parenthesis characters, exactly as
`v.replace(/,/g, '').replace(/[()]/g, '')` does (no negation). -/
def stripCommasParens (s : String) : String :=
  String.mk ((s.data.filter (fun c => c ≠ ',')).filter
    (fun c => c ≠ '(' ∧ c ≠ ')'))

/-- Model of `parseVal` (AdminPortal.tsx lines 100–103): a missing value,
the empty string, the case-insensitive null marker, or a lone dash yields
zero; otherwise strip separators and parentheses and parse as a decimal,
defaulting to zero when unparseable (`|| 0` on NaN). -/
def parseVal (v : Option String) : Dec :=
  match v with
  | none => Dec.zero
  | some s =>
    if s = "" then Dec.zero
    else if strUpper s = "NULL" then Dec.zero
    else if s = "-" then Dec.zero
    else
      match parseFloatM (stripCommasParens s) with
      | some d => d
      | none => Dec.zero

/-- Strip a single leading byte-order marker U+FEFF. -/
def stripBOM (s : String) : String :=
  match s.data with
  | c :: rest => if c = '\uFEFF' then String.mk rest else s
  | [] => s

/-- Split on the line separators accepted by `split(/\r?\n/)`: a newline,
optionally preceded by a carriage return; a lone carriage return is
content. -/
def splitNL : List Char → List Char → List String
  | [], acc => [String.mk acc.reverse]
  | '\r' :: '\n' :: rest, acc => String.mk acc.reverse :: splitNL rest []
  | '\n' :: rest, acc => String.mk acc.reverse :: splitNL rest []
  | c :: rest, acc => splitNL rest (c :: acc)

/-- All lines of a text under either line-ending convention. -/
def splitLines (s : String) : List String := splitNL s.data []

/-- Model of `parseCSVLine` (AdminPortal.tsx lines 62–72): double quotes
toggle an in-quotes state and are dropped; commas outside quotes separate
fields; every field is trimmed. -/
def parseCSVAux : List Char → List Char → Bool → List (List Char)
  | [], cur, _ => [cur.reverse]
  | c :: rest, cur, inQ =>
    if c = '"' then parseCSVAux rest cur (!inQ)
    else if c = ',' && !inQ then cur.reverse :: parseCSVAux rest [] inQ
    else parseCSVAux rest (c :: cur) inQ

/-- Tokenize one CSV line into trimmed fields. -/
def parseCSVLine (line : String) : List String :=
  (parseCSVAux line.data [] false).map (fun cs => String.mk (trimChars cs))

/-- Model of `getIdx`: the index in the normalized header row of the first
alias that occurs there, trying aliases in order. -/
def getIdx (normH : List String) : List String → Option Nat
  | [] => none
  | n :: rest =>
    match normH.findIdx? (fun h => h == strLower n) with
    | some i => some i
    | none => getIdx normH rest

/-- Model of `col`: the trimmed cell of the row under the first matching
header alias; `none` when no alias matches or the row is short. -/
def colv (normH cols : List String) (names : List String) : Option String :=
  match getIdx normH names with
  | none => none
  | some i => (cols.get? i).map strTrim

/-- Model of the host `x || d` idiom on strings: an absent or empty value
falls back to the default. -/
def orDefault (o : Option String) (d : String) : String :=
  match o with
  | none => d
  | some s => if s = "" then d else s

/-- Identity normalization as written in `handleMasterSync`
(AdminPortal.tsx line 111): `rawCNIC.replace(/[^0-9X]/g, '')` — keep
digits and the upper-case check letter, with no case folding. -/
def normalizeCNIC (s : String) : String :=
  String.mk (s.data.filter (fun c => isDigitC c || c = 'X'))

/-- Identity normalization as written in `handleMassImport`
(part_000 lines 174–175): `u.cnic.replace(/[^0-9X]/g, '')`. -/
def mergeKeyCNIC (s : String) : String :=
  String.mk (s.data.filter (fun c => isDigitC c || c = 'X'))

/-- Identity normalization as written at the owner-to-file matching site
(part_000 lines 218–219): `cnic.replace(/[^0-9X]/g, '')`. -/
def sessionKeyCNIC (s : String) : String :=
  String.mk (s.data.filter (fun c => isDigitC c || c = 'X'))

/-- Modelled from the spec's words, for comparison with the code: "uppercase,
strip every character that is not a digit or the single allowed terminal
check letter". -/
def specNormalizeCNIC (s : String) : String :=
  String.mk ((s.data.map Char.toUpper).filter (fun c => isDigitC c || c = 'X'))

/-- Owner identity record (`User` in the source data model). -/
structure User where
  id : String
  cnic : String
  name : String
  email : String
  phone : String
  role : String
  status : String
  password : String
deriving DecidableEq

/-- One ledger line of a property file (`Transaction` in the source). -/
structure Transaction where
  seq : Nat
  transid : Nat
  line_id : Nat
  shortname : String
  duedate : String
  receivable : Dec
  u_intno : Dec
  u_intname : String
  transtype : String
  itemcode : String
  plottype : String
  currency : String
  description : String
  doctotal : Dec
  status : String
  balance : Dec
  balduedeb : Dec
  paysrc : Nat
  amount_paid : Dec
  receipt_date : Option String
  mode : Option String
  surcharge : Dec
deriving DecidableEq

/-- One property record (`PropertyFile` in the source). -/
structure PropertyFile where
  fileNo : String
  currencyNo : String
  plotSize : String
  plotValue : Dec
  balance : Dec
  receivable : Dec
  totalReceivable : Dec
  paymentReceived : Dec
  surcharge : Dec
  overdue : Dec
  ownerName : String
  ownerCNIC : String
  fatherName : String
  cellNo : String
  regDate : String
  address : String
  plotNo : String
  block : String
  park : String
  corner : String
  mainBoulevard : String
  transactions : List Transaction
deriving DecidableEq

/-- A placeholder property file used as the default of a lookup that the
control flow guarantees succeeds (the non-null assertion in the source). -/
def emptyFile : PropertyFile :=
  { fileNo := "", currencyNo := "", plotSize := "", plotValue := Dec.zero,
    balance := Dec.zero, receivable := Dec.zero, totalReceivable := Dec.zero,
    paymentReceived := Dec.zero, surcharge := Dec.zero, overdue := Dec.zero,
    ownerName := "", ownerCNIC := "", fatherName := "", cellNo := "",
    regDate := "", address := "", plotNo := "", block := "", park := "",
    corner := "", mainBoulevard := "", transactions := [] }

/-- Insertion-ordered key-value mapping modelling a host `Map`: `set` on a
present key replaces the value in place, otherwise appends. -/
def insertA {α : Type} (k : String) (v : α) : List (String × α) → List (String × α)
  | [] => [(k, v)]
  | p :: rest => if p.1 = k then (k, v) :: rest else p :: insertA k v rest

/-- Lookup in an insertion-ordered mapping (`Map.get`). -/
def findA {α : Type} (k : String) : List (String × α) → Option α
  | [] => none
  | p :: rest => if p.1 = k then some p.2 else findA k rest

abbrev UserMap := List (String × User)
abbrev FileMap := List (String × PropertyFile)

/-- The fields of one data row that drive keying, skipping and
accumulation, extracted through the same header-alias resolution the
source uses. -/
structure RowInfo where
  rawCNIC : String
  normCNIC : String
  itemCode : String
  paid : Dec
  os : Dec
deriving DecidableEq

/-- Extract the keying and monetary fields of one data row
(AdminPortal.tsx lines 110–112 and 150–151). -/
def rowInfo (normH : List String) (line : String) : RowInfo :=
  let cols := parseCSVLine line
  let rawCNIC := orDefault (colv normH cols ["ocnic", "cnic", "u_ocnic"]) ""
  { rawCNIC := rawCNIC
    normCNIC := normalizeCNIC rawCNIC
    itemCode := orDefault (colv normH cols ["itemcode", "item_code", "u_itemcode"]) ""
    paid := parseVal (colv normH cols ["reconsum", "paid"])
    os := parseVal (colv normH cols ["balduedeb", "balance"]) }

/-- A row is skipped when either natural key is empty
(`if (!normCNIC || !itemCode) return`). -/
def skipRow (r : RowInfo) : Bool := r.normCNIC == "" || r.itemCode == ""

/-- The owner materialized on first sight of an identity key
(AdminPortal.tsx lines 117–124). -/
def mkUser (normH cols : List String) (r : RowInfo) : User :=
  { id := "user-" ++ r.normCNIC
    cnic := r.rawCNIC
    name := orDefault (colv normH cols ["oname", "ownername", "name"]) "SAP Member"
    email := r.normCNIC ++ "@dinproperties.com.pk"
    phone := orDefault (colv normH cols ["ocell", "cellno"]) "-"
    role := "CLIENT"
    status := "Active"
    password := "password123" }

/-- The property file materialized on first sight of a file key
(AdminPortal.tsx lines 128–146); the owner was inserted just above, so the
lookup default is unreachable. -/
def mkFile (normH cols : List String) (r : RowInfo) (um : UserMap) : PropertyFile :=
  { fileNo := r.itemCode
    currencyNo := orDefault (colv normH cols ["currencyno", "currency"]) "-"
    plotSize := orDefault (colv normH cols ["dscription", "description", "size"]) "Plot"
    plotValue := parseVal (colv normH cols ["doctotal"])
    balance := Dec.zero
    receivable := Dec.zero
    totalReceivable := Dec.zero
    paymentReceived := Dec.zero
    surcharge := Dec.zero
    overdue := Dec.zero
    ownerName := ((findA r.normCNIC um).map (fun u => u.name)).getD ""
    ownerCNIC := r.rawCNIC
    fatherName := orDefault (colv normH cols ["ofatname", "fathername"]) "-"
    cellNo := orDefault (colv normH cols ["ocell", "cellno"]) "-"
    regDate := orDefault (colv normH cols ["otrfdate", "regdate"]) "-"
    address := orDefault (colv normH cols ["opraddress", "address"]) "-"
    plotNo := orDefault (colv normH cols ["plot", "plotno", "u_plotno"]) "-"
    block := orDefault (colv normH cols ["block", "u_block"]) "-"
    park := orDefault (colv normH cols ["park", "u_park"]) "-"
    corner := orDefault (colv normH cols ["corner", "u_corner"]) "-"
    mainBoulevard := orDefault (colv normH cols ["mb", "mainboulevard", "u_mainbu"]) "-"
    transactions := [] }

/-- The ledger line appended for one row (AdminPortal.tsx lines 156–167);
`now` models `Date.now()` at ingestion time. -/
def mkTxn (normH cols : List String) (r : RowInfo) (now idx : Nat)
    (prop : PropertyFile) : Transaction :=
  { seq := idx
    transid := now + idx
    line_id := 0
    shortname := r.itemCode
    duedate := orDefault (colv normH cols ["duedate"]) "-"
    receivable := parseVal (colv normH cols ["receivable"])
    u_intno := parseVal (colv normH cols ["u_intno"])
    u_intname := orDefault (colv normH cols ["u_intname"]) ""
    transtype := "13"
    itemcode := r.itemCode
    plottype := "Res"
    currency := "PKR"
    description := ""
    doctotal := prop.plotValue
    status := "Synced"
    balance := Dec.zero
    balduedeb := r.os
    paysrc := 0
    amount_paid := r.paid
    receipt_date := colv normH cols ["refdate"]
    mode := colv normH cols ["mode"]
    surcharge := parseVal (colv normH cols ["markup", "surcharge"]) }

/-- Owner insertion of one row: materialize the owner only on first sight
of its identity key (AdminPortal.tsx lines 116–125). -/
def stepUsers (normH cols : List String) (r : RowInfo) (um : UserMap) : UserMap :=
  if (findA r.normCNIC um).isSome then um
  else insertA r.normCNIC (mkUser normH cols r) um

/-- File insertion and accumulation of one row: materialize the file on
first sight of its key, then accumulate the row's paid and outstanding
amounts and append the row's ledger line (AdminPortal.tsx lines 127–167). -/
def stepFiles (normH cols : List String) (r : RowInfo) (now idx : Nat)
    (um : UserMap) (fm : FileMap) : FileMap :=
  let fm2 :=
    if (findA r.itemCode fm).isSome then fm
    else insertA r.itemCode (mkFile normH cols r um) fm
  let prop := (findA r.itemCode fm2).getD emptyFile
  insertA r.itemCode
    { prop with
      paymentReceived := prop.paymentReceived.add r.paid
      balance := prop.balance.add r.os
      transactions := prop.transactions ++ [mkTxn normH cols r now idx prop] }
    fm2

/-- Processing of one data row of `handleMasterSync`
(AdminPortal.tsx lines 108–168). -/
def processRow (normH : List String) (now idx : Nat) (line : String)
    (st : UserMap × FileMap) : UserMap × FileMap :=
  let cols := parseCSVLine line
  let r := rowInfo normH line
  if skipRow r then st
  else
    (stepUsers normH cols r st.1,
     stepFiles normH cols r now idx (stepUsers normH cols r st.1) st.2)

/-- Fold of `processRow` over the data rows with their ordinal positions
(the `forEach` of AdminPortal.tsx line 108). -/
def processLines (normH : List String) (now : Nat) :
    Nat → List String → UserMap × FileMap → UserMap × FileMap
  | _, [], st => st
  | idx, l :: ls, st =>
    processLines normH now (idx + 1) ls (processRow normH now idx l st)

/-- The non-empty lines of the ingestion text after removing a leading
byte-order marker (AdminPortal.tsx lines 81–82). -/
def linesOf (text : String) : List String :=
  (splitLines (stripBOM text)).filter (fun l => strTrim l != "")

/-- The normalized header row: cells trimmed and lower-cased
(AdminPortal.tsx lines 85–86). -/
def headerOf (text : String) : List String :=
  (parseCSVLine ((linesOf text).headD "")).map (fun h => strLower (strTrim h))

/-- The row extraction of every data line of the text. -/
def dataRows (text : String) : List RowInfo :=
  ((linesOf text).drop 1).map (rowInfo (headerOf text))

/-- The data rows that are not skipped (both natural keys non-empty). -/
def processedRows (text : String) : List RowInfo :=
  (dataRows text).filter (fun r => !skipRow r)

/-- The payload handed by `handleMasterSync` to `onImportFullDatabase`:
the two entity collections and the destructive flag. -/
structure ImportCall where
  users : List User
  files : List PropertyFile
  isDestructive : Bool
deriving DecidableEq

/-- Model of the parsing body of `handleMasterSync` (AdminPortal.tsx lines
80–175): fewer than two non-empty lines raise the format error that the
surrounding catch reports; otherwise the rows are normalized and aggregated
and the batch is handed over with the destructive flag set. -/
def handleMasterSync (now : Nat) (text : String) : Except String ImportCall :=
  let lines := linesOf text
  if lines.length < 2 then Except.error "Format"
  else
    let normH := headerOf text
    let st := processLines normH now 0 (lines.drop 1) ([], [])
    Except.ok ⟨st.1.map Prod.snd, st.2.map Prod.snd, true⟩

/-- The owners produced by a master-sync ingestion (empty on failure). -/
def masterSyncUsers (now : Nat) (text : String) : List User :=
  match handleMasterSync now text with
  | Except.ok c => c.users
  | Except.error _ => []

/-- The property files produced by a master-sync ingestion. -/
def masterSyncFiles (now : Nat) (text : String) : List PropertyFile :=
  match handleMasterSync now text with
  | Except.ok c => c.files
  | Except.error _ => []

/-- The merge key of an owner in `handleMassImport` (part_000 lines
174–175). -/
def mergeUserKey (u : User) : String := mergeKeyCNIC u.cnic

/-- Building a key-to-entity mapping by iterated `set`, as the host `Map`
constructor and the overlay `forEach` both do. -/
def buildMap {α : Type} (ps : List (String × α)) (m : List (String × α)) :
    List (String × α) :=
  ps.foldl (fun acc p => insertA p.1 p.2 acc) m

/-- Incremental overlay of one collection (part_000 lines 174–180): a map
is built from the existing entities, every freshly ingested entity is set
on top by natural key, and the mapping's values in order are the result. -/
def mergeByKey {α : Type} (keyOf : α → String) (existing fresh : List α) :
    List α :=
  (buildMap (fresh.map (fun x => (keyOf x, x)))
    (buildMap (existing.map (fun x => (keyOf x, x))) [])).map Prod.snd

/-- Model of the collection recomputation of `handleMassImport` (part_000
lines 168–184): destructive mode replaces both collections with the batch;
incremental mode overlays the batch by natural key. -/
def handleMassImport (isDestructive : Bool) (users : List User)
    (allFiles : List PropertyFile) (dataUsers : List User)
    (dataFiles : List PropertyFile) : List User × List PropertyFile :=
  if isDestructive then (dataUsers, dataFiles)
  else
    (mergeByKey mergeUserKey users dataUsers,
     mergeByKey PropertyFile.fileNo allFiles dataFiles)

/-- One observable persistence action of the merge engine. -/
inductive SyncEvent where
  | localPut (key : String) : SyncEvent
  | remoteUpsert (table : String) : SyncEvent
deriving DecidableEq

/-- Model of the full `handleMassImport` body (part_000 lines 168–193)
with its persistence actions in program order: both collections are
written to the durable local store (awaited) and only then are the two
remote upserts attempted. -/
def handleMassImportRun (isDestructive : Bool) (users : List User)
    (allFiles : List PropertyFile) (dataUsers : List User)
    (dataFiles : List PropertyFile) :
    (List User × List PropertyFile) × List SyncEvent :=
  (handleMassImport isDestructive users allFiles dataUsers dataFiles,
   [SyncEvent.localPut "users", SyncEvent.localPut "files",
    SyncEvent.remoteUpsert "users", SyncEvent.remoteUpsert "files"])

/-- Composition of the admin portal's ingestion with the merge engine: on
a format error no mutation entry point is invoked and the collections are
untouched; on success the parsed batch is imported
(AdminPortal.tsx lines 170–177 wiring into part_000 line 168). -/
def masterSyncState (now : Nat) (text : String)
    (st : List User × List PropertyFile) : List User × List PropertyFile :=
  match handleMasterSync now text with
  | Except.error _ => st
  | Except.ok c => handleMassImport c.isDestructive st.1 st.2 c.users c.files

/-- Which parts of the underlying IndexedDB machinery fail during one
storage operation: opening the database (the awaited `getDB`), creating
the transaction synchronously inside the promise executor, or the
asynchronous request/transaction error event. -/
structure StorageEnv where
  openFails : Bool
  txnCreateFails : Bool
  opFails : Bool
deriving DecidableEq

/-- Model of `AsyncStorage.setItem` (part_000 lines 55–66).  The `try`
wraps the awaited `getDB`, so an open failure is caught and logged; but
the promise is handed back with `return` (no `await`), so a rejection
arising inside it — a synchronous throw in the executor or the
`transaction.onerror` event — escapes to the caller. -/
def AsyncStorage.setItem (env : StorageEnv) : Except String Unit :=
  if env.openFails then Except.ok ()
  else if env.txnCreateFails then Except.error "InvalidStateError"
  else if env.opFails then Except.error "TransactionError"
  else Except.ok ()

/-- Model of `AsyncStorage.getItem` (part_000 lines 67–78): an open
failure is caught and `null` (absence) is returned, but a rejection of the
returned promise escapes, exactly as in `setItem`. -/
def AsyncStorage.getItem (env : StorageEnv) (stored : Option String) :
    Except String (Option String) :=
  if env.openFails then Except.ok none
  else if env.txnCreateFails then Except.error "InvalidStateError"
  else if env.opFails then Except.error "RequestError"
  else Except.ok stored

/-- Model of `AsyncStorage.clear` (part_000 lines 79–83): there is no
`try`/`catch` at all, so a failure of the awaited `getDB` or a synchronous
transaction-creation throw propagates; the fire-and-forget `clear` request
has no error handler, so its asynchronous failure is unobservable. -/
def AsyncStorage.clear (env : StorageEnv) : Except String Unit :=
  if env.openFails then Except.error "OpenError"
  else if env.txnCreateFails then Except.error "InvalidStateError"
  else Except.ok ()

/-- Identity key of the active session owner (part_000 line 218). -/
def userCnicNormalized (u : User) : String := sessionKeyCNIC u.cnic

/-- The files of the active owner, matched by normalized identity equality
(part_000 line 219). -/
def userFiles (u : User) (allFiles : List PropertyFile) : List PropertyFile :=
  allFiles.filter (fun f => sessionKeyCNIC f.ownerCNIC == userCnicNormalized u)

/-- Key-first deduplication: the distinct elements of a list in order of
first occurrence, the key order a host `Map` produces. -/
def firstDedup (l : List String) : List String :=
  l.foldl (fun acc k => if k ∈ acc then acc else acc ++ [k]) []

/-- Sum of the parsed paid amounts of the rows bearing one file code. -/
def sumPaid (rows : List RowInfo) (code : String) : ℚ :=
  ((rows.filter (fun r => r.itemCode == code)).map (fun r => r.paid.toRat)).sum

/-- Sum of the parsed outstanding amounts of the rows bearing one file
code. -/
def sumOs (rows : List RowInfo) (code : String) : ℚ :=
  ((rows.filter (fun r => r.itemCode == code)).map (fun r => r.os.toRat)).sum

/-- First entity of a collection carrying a given natural key. -/
def entityFor {α : Type} (keyOf : α → String) (k : String) (l : List α) :
    Option α :=
  l.find? (fun x => keyOf x == k)

/-- The two-row CSV of the ingestion scenario: one file code `F1`, paid
`"500"` and `"300"`, outstanding `"1,500.00"` (quoted, comma inside) and
`"(200)"`. -/
def demoText : String :=
  "itemcode,ocnic,reconsum,balduedeb\nF1,12345,500,\"1,500.00\"\nF1,12345,300,(200)"

/-- A one-data-row CSV whose raw identity value contains a separator, used
to exhibit what the owner-linkage field stores. -/
def rawCnicText : String :=
  "ocnic,itemcode\n123-45,F1"

/-- A concrete owner used to exercise the merge engine. -/
def demoUserA : User :=
  { id := "a", cnic := "111", name := "A", email := "a@x", phone := "-",
    role := "CLIENT", status := "Active", password := "p" }

/-- A second concrete owner with a distinct identity key. -/
def demoUserB : User :=
  { id := "b", cnic := "222", name := "B", email := "b@x", phone := "-",
    role := "CLIENT", status := "Active", password := "p" }

/-- A concrete property file used to exercise the merge engine. -/
def demoFileA : PropertyFile := { emptyFile with fileNo := "F1" }

/-- A second concrete property file with a distinct file number. -/
def demoFileB : PropertyFile := { emptyFile with fileNo := "F2" }

/-- Accumulated paid total of one file key in a file mapping (zero when
absent, as a fresh file starts at zero). -/
def paidTot (fm : FileMap) (k : String) : ℚ :=
  match findA k fm with
  | some f => f.paymentReceived.toRat
  | none => 0

/-- Accumulated outstanding total of one file key in a file mapping. -/
def osTot (fm : FileMap) (k : String) : ℚ :=
  match findA k fm with
  | some f => f.balance.toRat
  | none => 0

theorem Dec.toRat_zero : Dec.zero.toRat = 0 := by
  simp [Dec.toRat, Dec.zero]

theorem Dec.toRat_add (a b : Dec) : (a.add b).toRat = a.toRat + b.toRat := by
  have h1 : (10 : ℚ) ^ a.exp ≠ 0 := pow_ne_zero _ (by norm_num)
  have h2 : (10 : ℚ) ^ b.exp ≠ 0 := pow_ne_zero _ (by norm_num)
  simp only [Dec.add, Dec.toRat, pow_add]
  push_cast
  field_simp

theorem findA_insertA_self {α : Type} (k : String) (v : α)
    (m : List (String × α)) : findA k (insertA k v m) = some v := by
  induction m with
  | nil => simp [insertA, findA]
  | cons p rest ih =>
    by_cases h : p.1 = k
    · simp [insertA, h, findA]
    · simp [insertA, h, findA, ih]

theorem findA_insertA_ne {α : Type} {k' k : String} (h : k' ≠ k) (v : α)
    (m : List (String × α)) : findA k' (insertA k v m) = findA k' m := by
  induction m with
  | nil => simp [insertA, findA, Ne.symm h]
  | cons p rest ih =>
    by_cases hp : p.1 = k
    · subst hp
      simp [insertA, findA, Ne.symm h]
    · simp only [insertA, if_neg hp, findA]
      by_cases hp' : p.1 = k'
      · simp [hp']
      · simp [hp', ih]

theorem keys_insertA {α : Type} (k : String) (v : α) (m : List (String × α)) :
    (insertA k v m).map Prod.fst =
      if k ∈ m.map Prod.fst then m.map Prod.fst else m.map Prod.fst ++ [k] := by
  induction m with
  | nil => simp [insertA]
  | cons p rest ih =>
    by_cases h : p.1 = k
    · simp [insertA, h]
    · have : ¬ k = p.1 := fun hh => h hh.symm
      simp only [insertA, if_neg h, List.map_cons, List.mem_cons, this,
        false_or, ih]
      by_cases hm : k ∈ rest.map Prod.fst <;> simp [hm]

theorem mem_insertA {α : Type} {k : String} {v : α} {m : List (String × α)}
    {p : String × α} (hp : p ∈ insertA k v m) : p = (k, v) ∨ p ∈ m := by
  induction m with
  | nil => simpa [insertA] using hp
  | cons q rest ih =>
    by_cases h : q.1 = k
    · simp only [insertA, if_pos h, List.mem_cons] at hp
      rcases hp with hp | hp
      · exact Or.inl hp
      · exact Or.inr (List.mem_cons_of_mem _ hp)
    · simp only [insertA, if_neg h, List.mem_cons] at hp
      rcases hp with hp | hp
      · exact Or.inr (hp ▸ List.mem_cons_self _ _)
      · rcases ih hp with hh | hh
        · exact Or.inl hh
        · exact Or.inr (List.mem_cons_of_mem _ hh)

theorem findA_isSome_iff {α : Type} (k : String) (m : List (String × α)) :
    (findA k m).isSome = true ↔ k ∈ m.map Prod.fst := by
  induction m with
  | nil => simp [findA]
  | cons p rest ih =>
    by_cases h : p.1 = k
    · simp [findA, h]
    · have : ¬ k = p.1 := fun hh => h hh.symm
      simp [findA, h, this, ih]

theorem findA_eq_none_iff {α : Type} (k : String) (m : List (String × α)) :
    findA k m = none ↔ k ∉ m.map Prod.fst := by
  rw [← findA_isSome_iff]
  cases findA k m <;> simp

theorem findA_mem {α : Type} {k : String} {v : α} {m : List (String × α)}
    (h : findA k m = some v) : (k, v) ∈ m := by
  induction m with
  | nil => simp [findA] at h
  | cons p rest ih =>
    by_cases hp : p.1 = k
    · simp only [findA, if_pos hp] at h
      injection h with h2
      have hpv : p = (k, v) := Prod.ext hp h2
      rw [hpv]
      exact List.mem_cons_self _ _
    · simp only [findA, if_neg hp] at h
      exact List.mem_cons_of_mem _ (ih h)

theorem findA_of_mem_nodup {α : Type} {k : String} {v : α}
    {m : List (String × α)} (hn : (m.map Prod.fst).Nodup) (h : (k, v) ∈ m) :
    findA k m = some v := by
  induction m with
  | nil => simp at h
  | cons p rest ih =>
    rcases List.mem_cons.mp h with h | h
    · simp [findA, ← h]
    · have hk : p.1 ≠ k := by
        intro hh
        have : k ∈ rest.map Prod.fst :=
          List.mem_map.mpr ⟨(k, v), h, rfl⟩
        simp only [List.map_cons, List.nodup_cons] at hn
        exact hn.1 (hh ▸ this)
      have hn' : (rest.map Prod.fst).Nodup := by
        simp only [List.map_cons, List.nodup_cons] at hn
        exact hn.2
      simp [findA, hk, ih hn' h]

theorem findA_buildMap {α : Type} (k : String) (ps m : List (String × α))
    (hn : (ps.map Prod.fst).Nodup) :
    findA k (buildMap ps m) = (findA k ps).or (findA k m) := by
  induction ps generalizing m with
  | nil => simp [buildMap, findA]
  | cons p rest ih =>
    simp only [List.map_cons, List.nodup_cons] at hn
    have hstep : buildMap (p :: rest) m = buildMap rest (insertA p.1 p.2 m) := by
      simp [buildMap]
    rw [hstep, ih _ hn.2]
    by_cases hk : p.1 = k
    · subst hk
      have hnone : findA p.1 rest = none :=
        (findA_eq_none_iff _ _).mpr hn.1
      simp [findA, hnone, findA_insertA_self]
    · have hne : k ≠ p.1 := fun hh => hk hh.symm
      simp [findA, hk, findA_insertA_ne hne]

theorem keys_buildMap {α : Type} (ps m : List (String × α))
    (hn : (ps.map Prod.fst).Nodup) :
    (buildMap ps m).map Prod.fst =
      m.map Prod.fst ++
        (ps.map Prod.fst).filter (fun k => decide (k ∉ m.map Prod.fst)) := by
  induction ps generalizing m with
  | nil => simp [buildMap]
  | cons p rest ih =>
    simp only [List.map_cons, List.nodup_cons] at hn
    have hstep : buildMap (p :: rest) m = buildMap rest (insertA p.1 p.2 m) := by
      simp [buildMap]
    rw [hstep, ih _ hn.2, keys_insertA]
    by_cases hm : p.1 ∈ m.map Prod.fst
    · rw [if_pos hm]
      simp only [List.map_cons, List.filter_cons]
      rw [if_neg (by simpa using hm)]
    · rw [if_neg hm]
      simp only [List.map_cons, List.filter_cons]
      rw [if_pos (by simpa using hm)]
      have hfil :
          (rest.map Prod.fst).filter
              (fun k => decide (k ∉ (m.map Prod.fst ++ [p.1]))) =
            (rest.map Prod.fst).filter (fun k => decide (k ∉ m.map Prod.fst)) := by
        apply List.filter_congr
        intro x hx
        have hxp : x ≠ p.1 := fun hh => hn.1 (hh ▸ hx)
        simp [List.mem_append, hxp]
      rw [hfil]
      simp

theorem mem_buildMap {α : Type} {ps m : List (String × α)} {p : String × α}
    (hp : p ∈ buildMap ps m) : p ∈ ps ∨ p ∈ m := by
  induction ps generalizing m with
  | nil => exact Or.inr (by simpa [buildMap] using hp)
  | cons q rest ih =>
    have hstep : buildMap (q :: rest) m = buildMap rest (insertA q.1 q.2 m) := by
      simp [buildMap]
    rw [hstep] at hp
    rcases ih hp with h | h
    · exact Or.inl (List.mem_cons_of_mem _ h)
    · rcases mem_insertA h with h | h
      · left
        rw [h]
        have : q = (q.1, q.2) := rfl
        rw [← this]
        exact List.mem_cons_self _ _
      · exact Or.inr h

theorem entityFor_map_snd {α : Type} (keyOf : α → String) (k : String)
    (m : List (String × α)) (hkeys : ∀ p ∈ m, p.1 = keyOf p.2) :
    entityFor keyOf k (m.map Prod.snd) = findA k m := by
  induction m with
  | nil => simp [entityFor, findA]
  | cons p rest ih =>
    have hp := hkeys p (List.mem_cons_self _ _)
    have hrest : ∀ q ∈ rest, q.1 = keyOf q.2 := fun q hq =>
      hkeys q (List.mem_cons_of_mem _ hq)
    by_cases h : p.1 = k
    · simp [entityFor, findA, List.find?_cons, h, ← hp]
    · have : ¬ (keyOf p.2 == k) = true := by
        rw [beq_iff_eq, ← hp]
        exact h
      simp only [List.map_cons, entityFor, List.find?_cons, this, findA,
        if_neg h]
      exact ih hrest

theorem findA_mapPairs {α : Type} (keyOf : α → String) (k : String)
    (l : List α) :
    findA k (l.map (fun x => (keyOf x, x))) = entityFor keyOf k l := by
  induction l with
  | nil => simp [entityFor, findA]
  | cons x rest ih =>
    by_cases h : keyOf x = k
    · simp [findA, entityFor, List.find?_cons, h]
    · have : ¬ (keyOf x == k) = true := by rw [beq_iff_eq]; exact h
      simp [findA, entityFor, List.find?_cons, h, this, ih]

theorem mem_dedup_foldl (l : List String) :
    ∀ (acc : List String) (x : String),
      x ∈ l.foldl (fun acc k => if k ∈ acc then acc else acc ++ [k]) acc ↔
        x ∈ acc ∨ x ∈ l := by
  induction l with
  | nil => simp
  | cons k l ih =>
    intro acc x
    simp only [List.foldl_cons, ih, List.mem_cons]
    by_cases hk : k ∈ acc
    · rw [if_pos hk]
      constructor
      · rintro (h | h)
        · exact Or.inl h
        · exact Or.inr (Or.inr h)
      · rintro (h | h | h)
        · exact Or.inl h
        · exact Or.inl (h ▸ hk)
        · exact Or.inr h
    · rw [if_neg hk]
      simp only [List.mem_append, List.mem_singleton]
      tauto

theorem nodup_dedup_foldl (l : List String) :
    ∀ acc : List String, acc.Nodup →
      (l.foldl (fun acc k => if k ∈ acc then acc else acc ++ [k]) acc).Nodup := by
  induction l with
  | nil => intro acc h; simpa
  | cons k l ih =>
    intro acc h
    simp only [List.foldl_cons]
    by_cases hk : k ∈ acc
    · rw [if_pos hk]; exact ih acc h
    · rw [if_neg hk]
      refine ih _ ?_
      simp [List.nodup_append, h, hk]

theorem mem_firstDedup (l : List String) (x : String) :
    x ∈ firstDedup l ↔ x ∈ l := by
  simp [firstDedup, mem_dedup_foldl]

theorem nodup_firstDedup (l : List String) : (firstDedup l).Nodup :=
  nodup_dedup_foldl l [] List.nodup_nil

theorem rowInfo_normCNIC (normH : List String) (line : String) :
    (rowInfo normH line).normCNIC = normalizeCNIC (rowInfo normH line).rawCNIC :=
  rfl

theorem processRow_skip {normH : List String} {line : String}
    (h : skipRow (rowInfo normH line) = true) (now idx : Nat)
    (st : UserMap × FileMap) : processRow normH now idx line st = st := by
  simp [processRow, h]

theorem processRow_not_skip {normH : List String} {line : String}
    (h : skipRow (rowInfo normH line) = false) (now idx : Nat)
    (st : UserMap × FileMap) :
    processRow normH now idx line st =
      (stepUsers normH (parseCSVLine line) (rowInfo normH line) st.1,
       stepFiles normH (parseCSVLine line) (rowInfo normH line) now idx
         (stepUsers normH (parseCSVLine line) (rowInfo normH line) st.1) st.2) := by
  simp [processRow, h]

theorem keys_stepUsers (normH cols : List String) (r : RowInfo) (um : UserMap) :
    (stepUsers normH cols r um).map Prod.fst =
      if r.normCNIC ∈ um.map Prod.fst then um.map Prod.fst
      else um.map Prod.fst ++ [r.normCNIC] := by
  by_cases h : r.normCNIC ∈ um.map Prod.fst
  · have : (findA r.normCNIC um).isSome = true := (findA_isSome_iff _ _).mpr h
    simp [stepUsers, this, h]
  · have : ¬ (findA r.normCNIC um).isSome = true := fun hh =>
      h ((findA_isSome_iff _ _).mp hh)
    simp only [stepUsers, if_neg this, keys_insertA, if_neg h]

theorem keys_stepFiles (normH cols : List String) (r : RowInfo) (now idx : Nat)
    (um : UserMap) (fm : FileMap) :
    (stepFiles normH cols r now idx um fm).map Prod.fst =
      if r.itemCode ∈ fm.map Prod.fst then fm.map Prod.fst
      else fm.map Prod.fst ++ [r.itemCode] := by
  by_cases h : r.itemCode ∈ fm.map Prod.fst
  · have hs : (findA r.itemCode fm).isSome = true := (findA_isSome_iff _ _).mpr h
    simp only [stepFiles, if_pos hs, keys_insertA, if_pos h]
  · have hs : ¬ (findA r.itemCode fm).isSome = true := fun hh =>
      h ((findA_isSome_iff _ _).mp hh)
    simp only [stepFiles, if_neg hs, keys_insertA, if_neg h]
    rw [if_pos (by simp)]

theorem keys_processLines_users (normH : List String) (now : Nat) :
    ∀ (ls : List String) (idx : Nat) (st : UserMap × FileMap),
      (processLines normH now idx ls st).1.map Prod.fst =
        (((ls.map (rowInfo normH)).filter (fun r => !skipRow r)).map
            RowInfo.normCNIC).foldl
          (fun acc k => if k ∈ acc then acc else acc ++ [k])
          (st.1.map Prod.fst) := by
  intro ls
  induction ls with
  | nil => intro idx st; simp [processLines]
  | cons l ls ih =>
    intro idx st
    simp only [processLines, List.map_cons, List.filter_cons]
    cases hsk : skipRow (rowInfo normH l) with
    | true =>
      rw [processRow_skip hsk]
      simp only [hsk, Bool.not_true]
      rw [if_neg (by simp)]
      exact ih _ _
    | false =>
      rw [processRow_not_skip hsk]
      simp only [hsk, Bool.not_false]
      rw [if_pos trivial]
      simp only [List.map_cons, List.foldl_cons]
      rw [ih]
      congr 1
      exact keys_stepUsers normH (parseCSVLine l) (rowInfo normH l) st.1

theorem keys_processLines_files (normH : List String) (now : Nat) :
    ∀ (ls : List String) (idx : Nat) (st : UserMap × FileMap),
      (processLines normH now idx ls st).2.map Prod.fst =
        (((ls.map (rowInfo normH)).filter (fun r => !skipRow r)).map
            RowInfo.itemCode).foldl
          (fun acc k => if k ∈ acc then acc else acc ++ [k])
          (st.2.map Prod.fst) := by
  intro ls
  induction ls with
  | nil => intro idx st; simp [processLines]
  | cons l ls ih =>
    intro idx st
    simp only [processLines, List.map_cons, List.filter_cons]
    cases hsk : skipRow (rowInfo normH l) with
    | true =>
      rw [processRow_skip hsk]
      simp only [hsk, Bool.not_true]
      rw [if_neg (by simp)]
      exact ih _ _
    | false =>
      rw [processRow_not_skip hsk]
      simp only [hsk, Bool.not_false]
      rw [if_pos trivial]
      simp only [List.map_cons, List.foldl_cons]
      rw [ih]
      congr 1
      exact keys_stepFiles normH (parseCSVLine l) (rowInfo normH l) now idx
        (stepUsers normH (parseCSVLine l) (rowInfo normH l) st.1) st.2

theorem totals_stepFiles (normH cols : List String) (r : RowInfo)
    (now idx : Nat) (um : UserMap) (fm : FileMap) (k : String) :
    paidTot (stepFiles normH cols r now idx um fm) k =
      paidTot fm k + (if r.itemCode = k then r.paid.toRat else 0) ∧
    osTot (stepFiles normH cols r now idx um fm) k =
      osTot fm k + (if r.itemCode = k then r.os.toRat else 0) := by
  cases hf : findA r.itemCode fm with
  | some f =>
    have hs : (findA r.itemCode fm).isSome = true := by simp [hf]
    simp only [stepFiles, if_pos hs, hf, Option.getD_some]
    by_cases hk : r.itemCode = k
    · subst hk
      simp [paidTot, osTot, findA_insertA_self, hf, Dec.toRat_add]
    · have hne : k ≠ r.itemCode := fun hh => hk hh.symm
      simp [paidTot, osTot, findA_insertA_ne hne, hk]
  | none =>
    have hs : ¬ (findA r.itemCode fm).isSome = true := by simp [hf]
    simp only [stepFiles, if_neg hs, findA_insertA_self, Option.getD_some]
    by_cases hk : r.itemCode = k
    · subst hk
      simp [paidTot, osTot, findA_insertA_self, hf, mkFile, Dec.toRat_add,
        Dec.toRat_zero]
    · have hne : k ≠ r.itemCode := fun hh => hk hh.symm
      simp [paidTot, osTot, findA_insertA_ne hne, hk]

theorem sumPaid_cons (r : RowInfo) (rows : List RowInfo) (k : String) :
    sumPaid (r :: rows) k =
      (if r.itemCode = k then r.paid.toRat else 0) + sumPaid rows k := by
  by_cases h : r.itemCode = k
  · simp [sumPaid, List.filter_cons, h]
  · simp [sumPaid, List.filter_cons, h]

theorem sumOs_cons (r : RowInfo) (rows : List RowInfo) (k : String) :
    sumOs (r :: rows) k =
      (if r.itemCode = k then r.os.toRat else 0) + sumOs rows k := by
  by_cases h : r.itemCode = k
  · simp [sumOs, List.filter_cons, h]
  · simp [sumOs, List.filter_cons, h]

theorem totals_processLines (normH : List String) (now : Nat) :
    ∀ (ls : List String) (idx : Nat) (st : UserMap × FileMap) (k : String),
      paidTot (processLines normH now idx ls st).2 k =
        paidTot st.2 k +
          sumPaid ((ls.map (rowInfo normH)).filter (fun r => !skipRow r)) k ∧
      osTot (processLines normH now idx ls st).2 k =
        osTot st.2 k +
          sumOs ((ls.map (rowInfo normH)).filter (fun r => !skipRow r)) k := by
  intro ls
  induction ls with
  | nil => intro idx st k; simp [processLines, sumPaid, sumOs]
  | cons l ls ih =>
    intro idx st k
    simp only [processLines, List.map_cons, List.filter_cons]
    cases hsk : skipRow (rowInfo normH l) with
    | true =>
      rw [processRow_skip hsk]
      simp only [hsk, Bool.not_true]
      rw [if_neg (by simp)]
      exact ih _ _ _
    | false =>
      rw [processRow_not_skip hsk]
      simp only [hsk, Bool.not_false]
      rw [if_pos trivial]
      obtain ⟨ihp, iho⟩ := ih (idx + 1)
        (stepUsers normH (parseCSVLine l) (rowInfo normH l) st.1,
         stepFiles normH (parseCSVLine l) (rowInfo normH l) now idx
           (stepUsers normH (parseCSVLine l) (rowInfo normH l) st.1) st.2) k
      obtain ⟨hsp, hso⟩ := totals_stepFiles normH (parseCSVLine l)
        (rowInfo normH l) now idx
        (stepUsers normH (parseCSVLine l) (rowInfo normH l) st.1) st.2 k
      constructor
      · rw [ihp, hsp, sumPaid_cons]
        ring
      · rw [iho, hso, sumOs_cons]
        ring

theorem mem_stepUsers {normH cols : List String} {r : RowInfo} {um : UserMap}
    {p : String × User} (hp : p ∈ stepUsers normH cols r um) :
    p = (r.normCNIC, mkUser normH cols r) ∨ p ∈ um := by
  by_cases hs : (findA r.normCNIC um).isSome = true
  · simp only [stepUsers, if_pos hs] at hp
    exact Or.inr hp
  · simp only [stepUsers, if_neg hs] at hp
    exact mem_insertA hp

theorem findA_stepUsers_mono {normH cols : List String} {r : RowInfo}
    {um : UserMap} {k : String} {u : User} (h : findA k um = some u) :
    findA k (stepUsers normH cols r um) = some u := by
  by_cases hs : (findA r.normCNIC um).isSome = true
  · simp only [stepUsers, if_pos hs]
    exact h
  · simp only [stepUsers, if_neg hs]
    by_cases hk : k = r.normCNIC
    · subst hk
      rw [h] at hs
      simp at hs
    · rw [findA_insertA_ne hk]
      exact h

theorem findA_stepUsers_self (normH cols : List String) (r : RowInfo)
    (um : UserMap) :
    ∃ u, findA r.normCNIC (stepUsers normH cols r um) = some u := by
  cases hf : findA r.normCNIC um with
  | some u =>
    exact ⟨u, findA_stepUsers_mono hf⟩
  | none =>
    have hs : ¬ (findA r.normCNIC um).isSome = true := by simp [hf]
    refine ⟨mkUser normH cols r, ?_⟩
    simp only [stepUsers, if_neg hs]
    exact findA_insertA_self _ _ _

theorem stepFiles_eq_some {r : RowInfo} {fm : FileMap} {f : PropertyFile}
    (normH cols : List String) (now idx : Nat) (um : UserMap)
    (hf : findA r.itemCode fm = some f) :
    stepFiles normH cols r now idx um fm =
      insertA r.itemCode
        { f with
          paymentReceived := f.paymentReceived.add r.paid
          balance := f.balance.add r.os
          transactions := f.transactions ++ [mkTxn normH cols r now idx f] }
        fm := by
  simp [stepFiles, hf]

theorem stepFiles_eq_none {r : RowInfo} {fm : FileMap}
    (normH cols : List String) (now idx : Nat) (um : UserMap)
    (hf : findA r.itemCode fm = none) :
    stepFiles normH cols r now idx um fm =
      insertA r.itemCode
        { mkFile normH cols r um with
          paymentReceived :=
            (mkFile normH cols r um).paymentReceived.add r.paid
          balance := (mkFile normH cols r um).balance.add r.os
          transactions :=
            (mkFile normH cols r um).transactions ++
              [mkTxn normH cols r now idx (mkFile normH cols r um)] }
        (insertA r.itemCode (mkFile normH cols r um) fm) := by
  simp [stepFiles, hf, findA_insertA_self]

theorem stepFiles_shape (normH cols : List String) (r : RowInfo)
    (now idx : Nat) (um : UserMap) (fm : FileMap) :
    ∀ p ∈ stepFiles normH cols r now idx um fm,
      ∃ q, (q = (r.itemCode, mkFile normH cols r um) ∨ q ∈ fm) ∧
        p.1 = q.1 ∧ p.2.fileNo = q.2.fileNo ∧
        p.2.ownerCNIC = q.2.ownerCNIC ∧ p.2.ownerName = q.2.ownerName := by
  intro p hp
  cases hf : findA r.itemCode fm with
  | some f =>
    rw [stepFiles_eq_some normH cols now idx um hf] at hp
    rcases mem_insertA hp with h | h
    · exact ⟨(r.itemCode, f), Or.inr (findA_mem hf), by rw [h], by rw [h],
        by rw [h], by rw [h]⟩
    · exact ⟨p, Or.inr h, rfl, rfl, rfl, rfl⟩
  | none =>
    rw [stepFiles_eq_none normH cols now idx um hf] at hp
    rcases mem_insertA hp with h | h
    · exact ⟨(r.itemCode, mkFile normH cols r um), Or.inl rfl, by rw [h],
        by rw [h], by rw [h], by rw [h]⟩
    · rcases mem_insertA h with h2 | h2
      · exact ⟨(r.itemCode, mkFile normH cols r um), Or.inl rfl, by rw [h2],
          by rw [h2], by rw [h2], by rw [h2]⟩
      · exact ⟨p, Or.inr h2, rfl, rfl, rfl, rfl⟩

theorem pairInvU_processLines (normH : List String) (now : Nat) :
    ∀ (ls : List String) (idx : Nat) (st : UserMap × FileMap),
      (∀ p ∈ st.1, p.1 = normalizeCNIC p.2.cnic) →
      ∀ p ∈ (processLines normH now idx ls st).1,
        p.1 = normalizeCNIC p.2.cnic := by
  intro ls
  induction ls with
  | nil => intro idx st h; simpa [processLines] using h
  | cons l ls ih =>
    intro idx st h
    simp only [processLines]
    cases hsk : skipRow (rowInfo normH l) with
    | true =>
      rw [processRow_skip hsk]
      exact ih _ _ h
    | false =>
      rw [processRow_not_skip hsk]
      refine ih _ _ ?_
      intro p hp
      rcases mem_stepUsers hp with h2 | h2
      · rw [h2]
        rfl
      · exact h p h2

theorem pairInvF_processLines (normH : List String) (now : Nat) :
    ∀ (ls : List String) (idx : Nat) (st : UserMap × FileMap),
      (∀ p ∈ st.2, p.1 = p.2.fileNo) →
      ∀ p ∈ (processLines normH now idx ls st).2, p.1 = p.2.fileNo := by
  intro ls
  induction ls with
  | nil => intro idx st h; simpa [processLines] using h
  | cons l ls ih =>
    intro idx st h
    simp only [processLines]
    cases hsk : skipRow (rowInfo normH l) with
    | true =>
      rw [processRow_skip hsk]
      exact ih _ _ h
    | false =>
      rw [processRow_not_skip hsk]
      refine ih _ _ ?_
      intro p hp
      rcases stepFiles_shape _ _ _ _ _ _ _ p hp with
        ⟨q, hq, h1, h2, _, _⟩
      rcases hq with hq | hq
      · rw [h1, h2, hq]
        rfl
      · rw [h1, h2]
        exact h q hq

theorem findA_users_mono_processLines (normH : List String) (now : Nat) :
    ∀ (ls : List String) (idx : Nat) (st : UserMap × FileMap) (k : String)
      (u : User), findA k st.1 = some u →
      findA k (processLines normH now idx ls st).1 = some u := by
  intro ls
  induction ls with
  | nil => intro idx st k u h; simpa [processLines] using h
  | cons l ls ih =>
    intro idx st k u h
    simp only [processLines]
    cases hsk : skipRow (rowInfo normH l) with
    | true =>
      rw [processRow_skip hsk]
      exact ih _ _ _ _ h
    | false =>
      rw [processRow_not_skip hsk]
      exact ih _ _ _ _ (findA_stepUsers_mono h)

theorem linkInv_processLines (normH : List String) (now : Nat) :
    ∀ (ls : List String) (idx : Nat) (st : UserMap × FileMap),
      (∀ p ∈ st.2, ∃ u, findA (normalizeCNIC p.2.ownerCNIC) st.1 = some u ∧
        u.name = p.2.ownerName) →
      ∀ p ∈ (processLines normH now idx ls st).2,
        ∃ u, findA (normalizeCNIC p.2.ownerCNIC)
            (processLines normH now idx ls st).1 = some u ∧
          u.name = p.2.ownerName := by
  intro ls
  induction ls with
  | nil => intro idx st h; simpa [processLines] using h
  | cons l ls ih =>
    intro idx st h
    simp only [processLines]
    cases hsk : skipRow (rowInfo normH l) with
    | true =>
      rw [processRow_skip hsk]
      exact ih _ _ h
    | false =>
      rw [processRow_not_skip hsk]
      refine ih _ _ ?_
      intro p hp
      rcases stepFiles_shape _ _ _ _ _ _ _ p hp with
        ⟨q, hq, _, _, h3, h4⟩
      rcases hq with hq | hq
      · rcases findA_stepUsers_self normH (parseCSVLine l) (rowInfo normH l)
          st.1 with ⟨u, hu⟩
        refine ⟨u, ?_, ?_⟩
        · rw [h3, hq]
          exact hu
        · rw [h4, hq]
          simp [mkFile, hu]
      · rcases h q hq with ⟨u, hu, hn⟩
        refine ⟨u, ?_, ?_⟩
        · rw [h3]
          exact findA_stepUsers_mono hu
        · rw [h4]
          exact hn

theorem masterSync_ok (now : Nat) (text : String)
    (h : 2 ≤ (linesOf text).length) :
    handleMasterSync now text =
      Except.ok ⟨masterSyncUsers now text, masterSyncFiles now text, true⟩ := by
  have hlt : ¬ (linesOf text).length < 2 := by omega
  simp [handleMasterSync, masterSyncUsers, masterSyncFiles, hlt]

theorem masterSyncUsers_eq (now : Nat) (text : String)
    (h : 2 ≤ (linesOf text).length) :
    masterSyncUsers now text =
      (processLines (headerOf text) now 0 ((linesOf text).drop 1)
        ([], [])).1.map Prod.snd := by
  have hlt : ¬ (linesOf text).length < 2 := by omega
  simp [masterSyncUsers, handleMasterSync, hlt]

theorem masterSyncFiles_eq (now : Nat) (text : String)
    (h : 2 ≤ (linesOf text).length) :
    masterSyncFiles now text =
      (processLines (headerOf text) now 0 ((linesOf text).drop 1)
        ([], [])).2.map Prod.snd := by
  have hlt : ¬ (linesOf text).length < 2 := by omega
  simp [masterSyncFiles, handleMasterSync, hlt]

theorem map_snd_key {α : Type} (keyOf : α → String) (m : List (String × α))
    (h : ∀ p ∈ m, p.1 = keyOf p.2) :
    (m.map Prod.snd).map keyOf = m.map Prod.fst := by
  induction m with
  | nil => rfl
  | cons p rest ih =>
    have hp := h p (List.mem_cons_self _ _)
    have hrest : ∀ q ∈ rest, q.1 = keyOf q.2 := fun q hq =>
      h q (List.mem_cons_of_mem _ hq)
    simp [ih hrest, ← hp]

/-- C3.  For every input string, the numeric field parser returns 0 for
the empty string, the case-insensitive null marker and a lone dash; for
every other string it strips commas and parenthesis characters without
negating the value — parsing `"(200)"` yields 200, not −200 — and parses
the remainder as a decimal number, returning 0 if unparseable; parsing
`"1000"` and `"1,000.00"` yield the same value (and a missing field also
parses to 0). -/
theorem c3_parse_val_contract :
    (parseVal none).toRat = 0 ∧
    (parseVal (some "")).toRat = 0 ∧
    (∀ s : String, strUpper s = "NULL" → (parseVal (some s)).toRat = 0) ∧
    (parseVal (some "-")).toRat = 0 ∧
    (parseVal (some "(200)")).toRat = 200 ∧
    (parseVal (some "(200)")).toRat ≠ -200 ∧
    (parseVal (some "1000")).toRat = (parseVal (some "1,000.00")).toRat ∧
    (∀ s : String, s ≠ "" → strUpper s ≠ "NULL" → s ≠ "-" →
      parseVal (some s) = (parseFloatM (stripCommasParens s)).getD Dec.zero) := by
  refine ⟨?_, ?_, ?_, ?_, ?_, ?_, ?_, ?_⟩
  · simp [parseVal, Dec.toRat_zero]
  · simp [parseVal, Dec.toRat_zero]
  · intro s hs
    by_cases he : s = ""
    · simp [parseVal, he, Dec.toRat_zero]
    · simp [parseVal, he, hs, Dec.toRat_zero]
  · have h : parseVal (some "-") = Dec.zero := by decide
    rw [h, Dec.toRat_zero]
  · have h : parseVal (some "(200)") = ⟨200, 0⟩ := by decide
    rw [h]
    norm_num [Dec.toRat]
  · have h : parseVal (some "(200)") = ⟨200, 0⟩ := by decide
    rw [h]
    norm_num [Dec.toRat]
  · have h1 : parseVal (some "1000") = ⟨1000, 0⟩ := by decide
    have h2 : parseVal (some "1,000.00") = ⟨100000, 2⟩ := by decide
    rw [h1, h2]
    norm_num [Dec.toRat]
  · intro s h1 h2 h3
    cases hm : parseFloatM (stripCommasParens s) with
    | some d => simp [parseVal, h1, h2, h3, hm]
    | none => simp [parseVal, h1, h2, h3, hm]

/-- Witness for C3 at concrete inputs: the null-marker rule applies to a
mixed-case spelling. -/
theorem c3_parse_val_contract_check :
    strUpper "nUll" = "NULL" ∧ (parseVal (some "nUll")).toRat = 0 :=
  ⟨by decide, c3_parse_val_contract.2.2.1 "nUll" (by decide)⟩

/-- C4 counterexample: an open failure of the underlying database
propagates out of `clear`, which has no handler at all, so "no error
propagates past the operation's boundary" is false for the store as
implemented. -/
theorem c4_storage_counterexample :
    AsyncStorage.clear ⟨true, false, false⟩ = Except.error "OpenError" := rfl

/-- C4 amended.  Open failures are absorbed by `setItem` (caught and
logged) and by `getItem` (absence returned), and all three operations
succeed when the machinery does not fail; but a failure of the read/write
transaction itself rejects the promise that `setItem`/`getItem` hand back
without awaiting, escaping their `catch`, and `clear` propagates open
failures unconditionally. -/
theorem c4_storage_amended :
    ∀ (env : StorageEnv) (stored : Option String),
      (env.openFails = true →
        AsyncStorage.setItem env = Except.ok () ∧
        AsyncStorage.getItem env stored = Except.ok none ∧
        AsyncStorage.clear env = Except.error "OpenError") ∧
      (env.openFails = false → env.txnCreateFails = false →
        env.opFails = false →
        AsyncStorage.setItem env = Except.ok () ∧
        AsyncStorage.getItem env stored = Except.ok stored ∧
        AsyncStorage.clear env = Except.ok ()) ∧
      (env.openFails = false → env.txnCreateFails = false →
        env.opFails = true →
        AsyncStorage.setItem env = Except.error "TransactionError" ∧
        AsyncStorage.getItem env stored = Except.error "RequestError") := by
  intro env stored
  obtain ⟨o, t, p⟩ := env
  refine ⟨?_, ?_, ?_⟩
  · intro h
    subst h
    simp [AsyncStorage.setItem, AsyncStorage.getItem, AsyncStorage.clear]
  · intro h1 h2 h3
    subst h1; subst h2; subst h3
    simp [AsyncStorage.setItem, AsyncStorage.getItem, AsyncStorage.clear]
  · intro h1 h2 h3
    subst h1; subst h2; subst h3
    simp [AsyncStorage.setItem, AsyncStorage.getItem]

/-- Witness for C4 amended: a transaction failure with a healthy open
propagates out of both `setItem` and `getItem`. -/
theorem c4_storage_amended_check :
    AsyncStorage.setItem ⟨false, false, true⟩ = Except.error "TransactionError" ∧
    AsyncStorage.getItem ⟨false, false, true⟩ none = Except.error "RequestError" :=
  (c4_storage_amended ⟨false, false, true⟩ none).2.2 rfl rfl rfl

/-- C5 counterexample: the code's normalization does not uppercase first,
so a lower-case terminal check letter is stripped where the spec's
"uppercase, then strip" would retain it. -/
theorem c5_normalization_counterexample :
    normalizeCNIC "12345-678x" ≠ specNormalizeCNIC "12345-678x" := by decide

/-- C5 amended.  The derived identity key strips every character that is
not a digit or an upper-case `X`, with no case folding (so `"12345-678x"`
keys as `"12345678"`, not `"12345678X"`), and all three comparison sites —
ingestion keying, incremental-merge keying, and owner-to-file matching —
use this same normalization. -/
theorem c5_normalization_amended :
    (∀ s, normalizeCNIC s = mergeKeyCNIC s) ∧
    (∀ s, normalizeCNIC s = sessionKeyCNIC s) ∧
    normalizeCNIC "12345-678x" = "12345678" ∧
    specNormalizeCNIC "12345-678x" = "12345678X" :=
  ⟨fun _ => rfl, fun _ => rfl, by decide, by decide⟩

/-- C6.  An ingestion input with fewer than two non-empty lines fails with
the format error reported to the caller, and the in-memory owner and file
collections are exactly what they were before the attempt. -/
theorem c6_short_input_blocks :
    ∀ (now : Nat) (text : String) (st : List User × List PropertyFile),
      (linesOf text).length < 2 →
      handleMasterSync now text = Except.error "Format" ∧
      masterSyncState now text st = st := by
  intro now text st h
  have h1 : handleMasterSync now text = Except.error "Format" := by
    simp [handleMasterSync, h]
  exact ⟨h1, by simp [masterSyncState, h1]⟩

/-- Witness for C6: a one-line input is rejected and a concrete state is
left unchanged. -/
theorem c6_short_input_blocks_check :
    (linesOf "header only").length < 2 ∧
    (handleMasterSync 7 "header only" = Except.error "Format" ∧
      masterSyncState 7 "header only" ([], []) = ([], [])) :=
  ⟨by decide, c6_short_input_blocks 7 "header only" ([], []) (by decide)⟩

/-- C8.  Within one mass-import call, every durable-store write occurs
strictly before every remote-mirror upsert attempt in the engine's event
order. -/
theorem c8_local_before_remote :
    ∀ (isD : Bool) (users : List User) (files : List PropertyFile)
      (dU : List User) (dF : List PropertyFile) (i j : Nat) (k t : String),
      (handleMassImportRun isD users files dU dF).2.get? i =
        some (SyncEvent.localPut k) →
      (handleMassImportRun isD users files dU dF).2.get? j =
        some (SyncEvent.remoteUpsert t) →
      i < j := by
  intro isD users files dU dF i j k t h1 h2
  simp only [handleMassImportRun] at h1 h2
  have hi : i < 2 := by
    rcases i with _ | _ | _ | _ | i
    · omega
    · omega
    · simp at h1
    · simp at h1
    · simp at h1
  have hj : 2 ≤ j := by
    rcases j with _ | _ | j
    · simp at h2
    · simp at h2
    · omega
  omega

/-- Witness for C8 at a concrete call: the first local write precedes the
first remote upsert. -/
theorem c8_local_before_remote_check :
    (handleMassImportRun true [] [] [] []).2.get? 0 =
      some (SyncEvent.localPut "users") ∧
    (handleMassImportRun true [] [] [] []).2.get? 2 =
      some (SyncEvent.remoteUpsert "users") ∧
    (0 : Nat) < 2 :=
  ⟨rfl, rfl, c8_local_before_remote true [] [] [] [] 0 2 "users" "users" rfl rfl⟩

/-- C10.  Every successfully parsed master-sync import hands the merge
engine the batch with the destructive flag set to true, and the resulting
collections are exactly the batch's entities. -/
theorem c10_destructive_only :
    ∀ (now : Nat) (text : String) (st : List User × List PropertyFile),
      2 ≤ (linesOf text).length →
      handleMasterSync now text =
        Except.ok ⟨masterSyncUsers now text, masterSyncFiles now text, true⟩ ∧
      masterSyncState now text st =
        (masterSyncUsers now text, masterSyncFiles now text) := by
  intro now text st h
  refine ⟨masterSync_ok now text h, ?_⟩
  simp [masterSyncState, masterSync_ok now text h, handleMassImport]

/-- Witness for C10 at the two-row scenario CSV. -/
theorem c10_destructive_only_check :
    2 ≤ (linesOf demoText).length ∧
    (handleMasterSync 0 demoText =
      Except.ok ⟨masterSyncUsers 0 demoText, masterSyncFiles 0 demoText, true⟩ ∧
    masterSyncState 0 demoText ([], []) =
      (masterSyncUsers 0 demoText, masterSyncFiles 0 demoText)) :=
  ⟨by decide, c10_destructive_only 0 demoText ([], []) (by decide)⟩

/-- C7.  For every valid two-or-more-line CSV, ingestion produces exactly
one Owner per distinct normalized identity number among the processed rows
and exactly one PropertyFile per distinct file code (the key lists are
duplicate-free and range over exactly the keys present); and a row with an
empty normalized identity or file code is skipped entirely, leaving the
state untouched. -/
theorem c7_one_entity_per_key :
    (∀ (now : Nat) (text : String), 2 ≤ (linesOf text).length →
      ((masterSyncUsers now text).map (fun u => normalizeCNIC u.cnic)).Nodup ∧
      (∀ k, k ∈ (masterSyncUsers now text).map (fun u => normalizeCNIC u.cnic) ↔
        k ∈ (processedRows text).map RowInfo.normCNIC) ∧
      ((masterSyncFiles now text).map PropertyFile.fileNo).Nodup ∧
      (∀ k, k ∈ (masterSyncFiles now text).map PropertyFile.fileNo ↔
        k ∈ (processedRows text).map RowInfo.itemCode)) ∧
    (∀ (normH : List String) (now idx : Nat) (line : String)
        (st : UserMap × FileMap), skipRow (rowInfo normH line) = true →
      processRow normH now idx line st = st) := by
  constructor
  · intro now text h
    have hu : (masterSyncUsers now text).map (fun u => normalizeCNIC u.cnic) =
        firstDedup ((processedRows text).map RowInfo.normCNIC) := by
      rw [masterSyncUsers_eq now text h]
      rw [map_snd_key (fun u : User => normalizeCNIC u.cnic) _
        (pairInvU_processLines (headerOf text) now _ 0 ([], []) (by simp))]
      rw [keys_processLines_users]
      simp [firstDedup, processedRows, dataRows]
    have hf : (masterSyncFiles now text).map PropertyFile.fileNo =
        firstDedup ((processedRows text).map RowInfo.itemCode) := by
      rw [masterSyncFiles_eq now text h]
      rw [map_snd_key PropertyFile.fileNo _
        (pairInvF_processLines (headerOf text) now _ 0 ([], []) (by simp))]
      rw [keys_processLines_files]
      simp [firstDedup, processedRows, dataRows]
    refine ⟨?_, ?_, ?_, ?_⟩
    · rw [hu]; exact nodup_firstDedup _
    · intro k; rw [hu]; exact mem_firstDedup _ _
    · rw [hf]; exact nodup_firstDedup _
    · intro k; rw [hf]; exact mem_firstDedup _ _
  · intro normH now idx line st hsk
    exact processRow_skip hsk now idx st

/-- Witness for C7 at the two-row scenario CSV. -/
theorem c7_one_entity_per_key_check :
    2 ≤ (linesOf demoText).length ∧
    (((masterSyncUsers 0 demoText).map (fun u => normalizeCNIC u.cnic)).Nodup ∧
      (∀ k, k ∈ (masterSyncUsers 0 demoText).map (fun u => normalizeCNIC u.cnic) ↔
        k ∈ (processedRows demoText).map RowInfo.normCNIC) ∧
      ((masterSyncFiles 0 demoText).map PropertyFile.fileNo).Nodup ∧
      (∀ k, k ∈ (masterSyncFiles 0 demoText).map PropertyFile.fileNo ↔
        k ∈ (processedRows demoText).map RowInfo.itemCode)) :=
  ⟨by decide, c7_one_entity_per_key.1 0 demoText (by decide)⟩

/-- C9 counterexample: the owner-linkage identity field of an ingested
file stores the raw identity string of the creating row, not the
normalized identity number the claim states. -/
theorem c9_owner_linkage_counterexample :
    (masterSyncFiles 0 rawCnicText).map PropertyFile.ownerCNIC = ["123-45"] ∧
    normalizeCNIC "123-45" = "12345" ∧ ("123-45" : String) ≠ "12345" :=
  ⟨by decide, by decide, by decide⟩

/-- C9 amended.  Every ingested file's owner linkage holds the owner's
display name together with the raw identity string of the creating row;
normalizing that string yields the key of an Owner present in the same
batch, and the stored owner name is that owner's name. -/
theorem c9_owner_linkage_amended :
    ∀ (now : Nat) (text : String), 2 ≤ (linesOf text).length →
      ∀ f ∈ masterSyncFiles now text,
        ∃ u ∈ masterSyncUsers now text,
          normalizeCNIC u.cnic = normalizeCNIC f.ownerCNIC ∧
          u.name = f.ownerName := by
  intro now text h f hf
  rw [masterSyncFiles_eq now text h] at hf
  rcases List.mem_map.mp hf with ⟨p, hp, rfl⟩
  rcases linkInv_processLines (headerOf text) now _ 0 ([], []) (by simp) p hp
    with ⟨u, hu, hname⟩
  have humem : u ∈ masterSyncUsers now text := by
    rw [masterSyncUsers_eq now text h]
    exact List.mem_map.mpr ⟨_, findA_mem hu, rfl⟩
  have hkey : normalizeCNIC u.cnic = normalizeCNIC p.2.ownerCNIC := by
    have hinv := pairInvU_processLines (headerOf text) now _ 0 ([], [])
      (by simp) _ (findA_mem hu)
    exact hinv.symm
  exact ⟨u, humem, hkey, hname⟩

/-- Witness for C9 amended at the separator-bearing identity input. -/
theorem c9_owner_linkage_amended_check :
    2 ≤ (linesOf rawCnicText).length ∧
    (∀ f ∈ masterSyncFiles 0 rawCnicText,
      ∃ u ∈ masterSyncUsers 0 rawCnicText,
        normalizeCNIC u.cnic = normalizeCNIC f.ownerCNIC ∧
        u.name = f.ownerName) :=
  ⟨by decide, c9_owner_linkage_amended 0 rawCnicText (by decide)⟩

/-- C1.  For every parsed batch in which every data row carries both
natural keys, each resulting file's `paymentReceived` is the sum of the
parsed paid amounts of the rows bearing its file code, and its `balance`
is the sum of their parsed outstanding amounts; and the two-row scenario
CSV yields exactly one file `F1` with payment value 800 and balance value
1700 (parentheses stripped, not negated), holding two transactions in row
order with paid values 500 then 300. -/
theorem c1_per_file_totals :
    (∀ (now : Nat) (text : String), 2 ≤ (linesOf text).length →
      (∀ r ∈ dataRows text, r.normCNIC ≠ "" ∧ r.itemCode ≠ "") →
      ∀ f ∈ masterSyncFiles now text,
        f.paymentReceived.toRat = sumPaid (dataRows text) f.fileNo ∧
        f.balance.toRat = sumOs (dataRows text) f.fileNo) ∧
    ((masterSyncFiles 0 demoText).map
        (fun f => (f.fileNo, f.paymentReceived, f.balance,
          f.transactions.map (fun t => (t.seq, t.amount_paid)))) =
      [("F1", ⟨800, 0⟩, ⟨170000, 2⟩, [(0, ⟨500, 0⟩), (1, ⟨300, 0⟩)])] ∧
      Dec.toRat ⟨800, 0⟩ = 800 ∧ Dec.toRat ⟨170000, 2⟩ = 1700 ∧
      Dec.toRat ⟨500, 0⟩ = 500 ∧ Dec.toRat ⟨300, 0⟩ = 300) := by
  constructor
  · intro now text hlen hkeys f hf
    rw [masterSyncFiles_eq now text hlen] at hf
    rcases List.mem_map.mp hf with ⟨p, hp, rfl⟩
    have hfileNo : p.1 = p.2.fileNo :=
      pairInvF_processLines (headerOf text) now _ 0 ([], []) (by simp) p hp
    have hnodup : ((processLines (headerOf text) now 0
        ((linesOf text).drop 1) ([], [])).2.map Prod.fst).Nodup := by
      rw [keys_processLines_files]
      have : (((((linesOf text).drop 1).map (rowInfo (headerOf text))).filter
          (fun r => !skipRow r)).map RowInfo.itemCode).foldl
            (fun acc k => if k ∈ acc then acc else acc ++ [k])
            (List.map Prod.fst (([], []) : UserMap × FileMap).2) =
          firstDedup ((((((linesOf text).drop 1).map
            (rowInfo (headerOf text))).filter
              (fun r => !skipRow r)).map RowInfo.itemCode)) := by
        simp [firstDedup]
      rw [this]
      exact nodup_firstDedup _
    have hfind : findA p.1 (processLines (headerOf text) now 0
        ((linesOf text).drop 1) ([], [])).2 = some p.2 :=
      findA_of_mem_nodup hnodup hp
    have htot := totals_processLines (headerOf text) now
      ((linesOf text).drop 1) 0 ([], []) p.1
    have hfilter : ((((linesOf text).drop 1).map
        (rowInfo (headerOf text))).filter (fun r => !skipRow r)) =
        dataRows text := by
      have : ∀ r ∈ dataRows text, (!skipRow r) = true := by
        intro r hr
        rcases hkeys r hr with ⟨h1, h2⟩
        simp [skipRow, h1, h2]
      exact List.filter_eq_self.mpr this
    rw [hfilter] at htot
    obtain ⟨htp, hto⟩ := htot
    constructor
    · have : paidTot (processLines (headerOf text) now 0
          ((linesOf text).drop 1) ([], [])).2 p.1 = p.2.paymentReceived.toRat := by
        unfold paidTot
        rw [hfind]
      rw [← hfileNo, ← this, htp]
      simp [paidTot, findA]
    · have : osTot (processLines (headerOf text) now 0
          ((linesOf text).drop 1) ([], [])).2 p.1 = p.2.balance.toRat := by
        unfold osTot
        rw [hfind]
      rw [← hfileNo, ← this, hto]
      simp [osTot, findA]
  · refine ⟨by decide, ?_, ?_, ?_, ?_⟩ <;> norm_num [Dec.toRat]

/-- Witness for C1: the general totals law applied to the two-row
scenario CSV, whose rows all carry both keys. -/
theorem c1_per_file_totals_check :
    2 ≤ (linesOf demoText).length ∧
    (∀ r ∈ dataRows demoText, r.normCNIC ≠ "" ∧ r.itemCode ≠ "") ∧
    (∀ f ∈ masterSyncFiles 0 demoText,
      f.paymentReceived.toRat = sumPaid (dataRows demoText) f.fileNo ∧
      f.balance.toRat = sumOs (dataRows demoText) f.fileNo) :=
  ⟨by decide, by decide, c1_per_file_totals.1 0 demoText (by decide) (by decide)⟩

theorem length_union_card (A B : List String) (hA : A.Nodup) (hB : B.Nodup) :
    (A ++ B.filter (fun k => decide (k ∉ A))).length =
      (A.toFinset ∪ B.toFinset).card := by
  have hnd : (A ++ B.filter (fun k => decide (k ∉ A))).Nodup := by
    refine List.Nodup.append hA (hB.filter _) ?_
    intro x hxA hxf
    rcases List.mem_filter.mp hxf with ⟨_, hdec⟩
    simp only [decide_eq_true_eq] at hdec
    exact hdec hxA
  have hset : (A ++ B.filter (fun k => decide (k ∉ A))).toFinset =
      A.toFinset ∪ B.toFinset := by
    apply Finset.ext
    intro x
    simp only [List.toFinset_append, Finset.mem_union, List.mem_toFinset,
      List.mem_filter, decide_eq_true_eq]
    constructor
    · rintro (h | ⟨h, _⟩)
      · exact Or.inl h
      · exact Or.inr h
    · rintro (h | h)
      · exact Or.inl h
      · by_cases hxA : x ∈ A
        · exact Or.inl hxA
        · exact Or.inr ⟨h, hxA⟩
  rw [← hset, List.toFinset_card_of_nodup hnd]

theorem mergeByKey_spec {α : Type} (keyOf : α → String) (A B : List α)
    (hA : (A.map keyOf).Nodup) (hB : (B.map keyOf).Nodup) :
    (∀ k, entityFor keyOf k (mergeByKey keyOf A B) =
      (entityFor keyOf k B).or (entityFor keyOf k A)) ∧
    (mergeByKey keyOf A B).length =
      ((A.map keyOf).toFinset ∪ (B.map keyOf).toFinset).card := by
  have hA' : ((A.map (fun x => (keyOf x, x))).map Prod.fst).Nodup := by
    rw [List.map_map]; exact hA
  have hB' : ((B.map (fun x => (keyOf x, x))).map Prod.fst).Nodup := by
    rw [List.map_map]; exact hB
  have hpairs : ∀ p ∈ buildMap (B.map (fun x => (keyOf x, x)))
      (buildMap (A.map (fun x => (keyOf x, x))) []), p.1 = keyOf p.2 := by
    intro p hp
    rcases mem_buildMap hp with h | h
    · rcases List.mem_map.mp h with ⟨x, _, rfl⟩
      rfl
    · rcases mem_buildMap h with h2 | h2
      · rcases List.mem_map.mp h2 with ⟨x, _, rfl⟩
        rfl
      · simp at h2
  constructor
  · intro k
    unfold mergeByKey
    rw [entityFor_map_snd keyOf k _ hpairs]
    rw [findA_buildMap _ _ _ hB']
    rw [findA_buildMap _ _ _ hA']
    rw [findA_mapPairs, findA_mapPairs]
    cases entityFor keyOf k A <;> cases entityFor keyOf k B <;>
      simp [findA, Option.or]
  · unfold mergeByKey
    rw [List.length_map]
    have hlen : (buildMap (B.map (fun x => (keyOf x, x)))
        (buildMap (A.map (fun x => (keyOf x, x))) [])).length =
        ((buildMap (B.map (fun x => (keyOf x, x)))
          (buildMap (A.map (fun x => (keyOf x, x))) [])).map Prod.fst).length := by
      rw [List.length_map]
    rw [hlen, keys_buildMap _ _ hB']
    have hM0 : (buildMap (A.map (fun x => (keyOf x, x))) []).map Prod.fst =
        A.map keyOf := by
      rw [keys_buildMap _ _ hA']
      simp [List.map_map]
    rw [hM0, List.map_map]
    exact length_union_card (A.map keyOf) (B.map keyOf) hA hB

/-- C2.  Incremental merge of a duplicate-free batch into a duplicate-free
existing collection is a union keyed by natural key: lookup by key in the
result prefers the batch's entity, falls back to the existing one, and the
entity count is the size of the key union — for owners keyed by normalized
identity and for files keyed by file number. -/
theorem c2_incremental_union :
    ∀ (users dataUsers : List User) (files dataFiles : List PropertyFile),
      (users.map mergeUserKey).Nodup → (dataUsers.map mergeUserKey).Nodup →
      (files.map PropertyFile.fileNo).Nodup →
      (dataFiles.map PropertyFile.fileNo).Nodup →
      (∀ k, entityFor mergeUserKey k
          (handleMassImport false users files dataUsers dataFiles).1 =
        (entityFor mergeUserKey k dataUsers).or
          (entityFor mergeUserKey k users)) ∧
      (handleMassImport false users files dataUsers dataFiles).1.length =
        ((users.map mergeUserKey).toFinset ∪
          (dataUsers.map mergeUserKey).toFinset).card ∧
      (∀ k, entityFor PropertyFile.fileNo k
          (handleMassImport false users files dataUsers dataFiles).2 =
        (entityFor PropertyFile.fileNo k dataFiles).or
          (entityFor PropertyFile.fileNo k files)) ∧
      (handleMassImport false users files dataUsers dataFiles).2.length =
        ((files.map PropertyFile.fileNo).toFinset ∪
          (dataFiles.map PropertyFile.fileNo).toFinset).card := by
  intro users dataUsers files dataFiles hA hB hF hG
  have hu := mergeByKey_spec mergeUserKey users dataUsers hA hB
  have hf := mergeByKey_spec PropertyFile.fileNo files dataFiles hF hG
  refine ⟨?_, ?_, ?_, ?_⟩
  · intro k
    simp only [handleMassImport, if_neg Bool.false_ne_true]
    exact hu.1 k
  · simp only [handleMassImport, if_neg Bool.false_ne_true]
    exact hu.2
  · intro k
    simp only [handleMassImport, if_neg Bool.false_ne_true]
    exact hf.1 k
  · simp only [handleMassImport, if_neg Bool.false_ne_true]
    exact hf.2

/-- Witness for C2 on concrete one-element collections with distinct
keys. -/
theorem c2_incremental_union_check :
    ([demoUserA].map mergeUserKey).Nodup ∧
    ([demoUserB].map mergeUserKey).Nodup ∧
    ([demoFileA].map PropertyFile.fileNo).Nodup ∧
    ([demoFileB].map PropertyFile.fileNo).Nodup ∧
    ((∀ k, entityFor mergeUserKey k
        (handleMassImport false [demoUserA] [demoFileA] [demoUserB]
          [demoFileB]).1 =
      (entityFor mergeUserKey k [demoUserB]).or
        (entityFor mergeUserKey k [demoUserA])) ∧
    (handleMassImport false [demoUserA] [demoFileA] [demoUserB]
        [demoFileB]).1.length =
      (([demoUserA].map mergeUserKey).toFinset ∪
        ([demoUserB].map mergeUserKey).toFinset).card ∧
    (∀ k, entityFor PropertyFile.fileNo k
        (handleMassImport false [demoUserA] [demoFileA] [demoUserB]
          [demoFileB]).2 =
      (entityFor PropertyFile.fileNo k [demoFileB]).or
        (entityFor PropertyFile.fileNo k [demoFileA])) ∧
    (handleMassImport false [demoUserA] [demoFileA] [demoUserB]
        [demoFileB]).2.length =
      (([demoFileA].map PropertyFile.fileNo).toFinset ∪
        ([demoFileB].map PropertyFile.fileNo).toFinset).card) :=
  ⟨by decide, by decide, by decide, by decide,
    c2_incremental_union [demoUserA] [demoUserB] [demoFileA] [demoFileB]
      (by decide) (by decide) (by decide) (by decide)⟩
